import Mathlib

/-!
Verification development for `util/helm/cmd.go`: a thin wrapper around the
`helm` command line tool (argument-list construction, credential
materialisation as transient files, output redaction, and an isolated
process environment).

The Go code is shallowly embedded as follows:
* strings are Lean `String`s (with some reasoning done on `List Char`),
* byte slices (`[]byte`) are `List Nat`,
* the filesystem touched by `ioutil.TempDir` / `ioutil.TempFile` /
  `ioutil.WriteFile` / `os.RemoveAll` is an explicit state: every temp
  allocation receives a fresh numeric id, a path is the list of ids from
  the temp root (so `ioutil.TempFile("", pat)` creates directly in the
  temp root, NOT inside a previously created temp directory), and
  `os.RemoveAll p` deletes every entry whose path has `p` as a prefix,
* fallible syscalls consult a fault script (a `List Bool`, `true` = this
  syscall fails), so both success and failure paths are executable,
* the two regexes of the file, `(--username|--password) [^ ]*` (with
  replacement `$1 ******`) and `([^\\]),` (with replacement `$1\,`), are
  embedded as executable scanners with Go `ReplaceAllString` semantics:
  leftmost, non-overlapping matches, greedy `[^ ]*`.
-/

/-- The eleven characters of `--username ` (flag plus the literal space of
the redaction regex). -/
def flagU : List Char := ['-', '-', 'u', 's', 'e', 'r', 'n', 'a', 'm', 'e', ' ']

/-- The eleven characters of `--password ` (flag plus the literal space of
the redaction regex). -/
def flagP : List Char := ['-', '-', 'p', 'a', 's', 's', 'w', 'o', 'r', 'd', ' ']

/-- The mask `******` substituted for a flag value by the redactor. -/
def maskChars : List Char := ['*', '*', '*', '*', '*', '*']

/-- One pass of Go `ReplaceAllString` for the regex
`(--username|--password) [^ ]*` with replacement `$1 ******`: scan left to
right; at the leftmost position where `--username ` or `--password ` begins,
the match extends over the maximal following run of non-space characters
(greedy `[^ ]*`); the value run is replaced by `******` and scanning resumes
after the match (non-overlapping). `fuel` bounds the recursion; it is
sufficient whenever `fuel ≥ s.length`. -/
def redactAux : Nat → List Char → List Char
  | 0, s => s
  | _ + 1, [] => []
  | fuel + 1, c :: cs =>
    if flagU.isPrefixOf (c :: cs) then
      flagU ++ maskChars ++ redactAux fuel (((c :: cs).drop 11).dropWhile (fun d => !(d == ' ')))
    else if flagP.isPrefixOf (c :: cs) then
      flagP ++ maskChars ++ redactAux fuel (((c :: cs).drop 11).dropWhile (fun d => !(d == ' ')))
    else
      c :: redactAux fuel cs

/-- `redactChars s` is the redaction of the character list `s`. -/
def redactChars (s : List Char) : List Char := redactAux s.length s

/-- The source's `redactor`: masks the values of `--username` and
`--password` flags in a string. -/
def redactor (text : String) : String := ⟨redactChars text.data⟩

/-- Split a character list into the (possibly empty) chunks separated by
spaces; used to speak about the tokens of a command line. -/
def splitTokens : List Char → List (List Char)
  | [] => [[]]
  | ' ' :: rest => [] :: splitTokens rest
  | c :: rest =>
    match splitTokens rest with
    | [] => [[c]]
    | t :: ts => (c :: t) :: ts

/-- The source's `cleanSetParameters` on character lists: Go
`ReplaceAllString` for the regex `([^\\]),` with replacement `$1\,` —
leftmost non-overlapping two-character matches (a non-backslash character
followed by a comma) get a backslash inserted before the comma, and
scanning resumes after the consumed pair. -/
def cleanSetCore : List Char → List Char
  | [] => []
  | [a] => [a]
  | a :: b :: rest =>
    if a ≠ '\\' ∧ b = ',' then a :: '\\' :: ',' :: cleanSetCore rest
    else a :: cleanSetCore (b :: rest)

/-- The source's `cleanSetParameters` on strings. -/
def cleanSetParameters (val : String) : String := ⟨cleanSetCore val.data⟩

/-- The version-dependent facts carried by the embedded `HelmVer` value
(fields as used by `cmd.go`). -/
structure HelmVer where
  binaryName : String
  initSupported : Bool
  pullCommand : String
  showCommand : String
  templateNameArg : String
  kubeVersionSupported : Bool
deriving DecidableEq, Repr

/-- The credential bundle `Creds` (fields as used by `cmd.go`); byte
slices are `List Nat`. -/
structure Creds where
  Username : String
  Password : String
  CAPath : String
  CertData : List Nat
  KeyData : List Nat
deriving DecidableEq, Repr

/-- `TemplateOpts` from the source. The three Go maps `Set`, `SetString`
and `SetFile` are embedded as association lists: a Go `range` over a map
visits each entry exactly once, in an order the language does not fix, so
the list parameter records one such iteration order. -/
structure TemplateOpts where
  Name : String
  Namespace : String
  KubeVersion : String
  APIVersions : List String
  Set : List (String × String)
  SetString : List (String × String)
  SetFile : List (String × String)
  Values : List String
deriving DecidableEq, Repr

/-- The argument list built by `Cmd.template` (everything up to the final
`c.run(args...)`). -/
def templateArgs (c : HelmVer) (chartPath : String) (opts : TemplateOpts) : List String :=
  ["template", chartPath, c.templateNameArg, opts.Name]
    ++ (if opts.Namespace ≠ "" then ["--namespace", opts.Namespace] else [])
    ++ (if opts.KubeVersion ≠ "" ∧ c.kubeVersionSupported then
          ["--kube-version", opts.KubeVersion] else [])
    ++ (opts.Set.map (fun kv => ["--set", kv.1 ++ "=" ++ cleanSetParameters kv.2])).flatten
    ++ (opts.SetString.map (fun kv => ["--set-string", kv.1 ++ "=" ++ cleanSetParameters kv.2])).flatten
    ++ (opts.SetFile.map (fun kv => ["--set-file", kv.1 ++ "=" ++ cleanSetParameters kv.2])).flatten
    ++ (opts.Values.map (fun v => ["--values", v])).flatten
    ++ (opts.APIVersions.map (fun v => ["--api-versions", v])).flatten

/-- The argument list built by `Cmd.Fetch` (everything up to the final
`c.run(args...)`). `certPath` and `keyPath` stand for the names of the
transient files returned by `writeToTmp` for the cert and key bytes; they
enter the list only when the corresponding byte slice is non-empty, exactly
as in the source. -/
def fetchArgs (c : HelmVer) (repo chartName version destination : String)
    (creds : Creds) (certPath keyPath : String) : List String :=
  [c.pullCommand, "--destination", destination]
    ++ (if version ≠ "" then ["--version", version] else [])
    ++ (if creds.Username ≠ "" then ["--username", creds.Username] else [])
    ++ (if creds.Password ≠ "" then ["--password", creds.Password] else [])
    ++ (if creds.CAPath ≠ "" then ["--ca-file", creds.CAPath] else [])
    ++ (if creds.CertData ≠ [] then ["--cert-file", certPath] else [])
    ++ (if creds.KeyData ≠ [] then ["--key-file", keyPath] else [])
    ++ ["--repo", repo, chartName]

/-- One entry of the modelled temp filesystem: its path (the list of
allocation ids from the temp root), whether it is a directory, and the
bytes it holds (empty for directories and freshly created files). -/
structure FsEntry where
  path : List Nat
  isDir : Bool
  content : List Nat
deriving DecidableEq, Repr

/-- The modelled temp filesystem: a fresh-id counter and the entries now
on disk. -/
structure FS where
  nextId : Nat
  entries : List FsEntry
deriving DecidableEq, Repr

/-- Execution state of an operation: the filesystem plus the fault script
(one `Bool` per fallible syscall, `true` = that syscall fails; an exhausted
script means every further syscall succeeds). -/
structure St where
  fs : FS
  faults : List Bool
deriving DecidableEq, Repr

/-- Pop the next fault-script entry. -/
def popFault (st : St) : Bool × St :=
  match st.faults with
  | [] => (false, st)
  | b :: rest => (b, ⟨st.fs, rest⟩)

/-- `ioutil.TempDir(dir, pattern)`: on success, creates a fresh directory
directly inside `dir` and returns its path. -/
def fsTempDir (dir : List Nat) (st : St) : Option (List Nat) × St :=
  let (f, st1) := popFault st
  if f then (none, st1)
  else
    let p := dir ++ [st1.fs.nextId]
    (some p, ⟨⟨st1.fs.nextId + 1, ⟨p, true, []⟩ :: st1.fs.entries⟩, st1.faults⟩)

/-- `ioutil.TempFile(dir, pattern)`: on success, creates a fresh empty
file directly inside `dir` and returns its path. A `dir` of `[]` is Go's
`""`, the system temp root. -/
def fsTempFile (dir : List Nat) (st : St) : Option (List Nat) × St :=
  let (f, st1) := popFault st
  if f then (none, st1)
  else
    let p := dir ++ [st1.fs.nextId]
    (some p, ⟨⟨st1.fs.nextId + 1, ⟨p, false, []⟩ :: st1.fs.entries⟩, st1.faults⟩)

/-- Writing `data` to the file at `p` (`File.Write` on a fresh file, or
`ioutil.WriteFile`, both of which leave exactly `data` in the file).
Returns `false` when the write fails. -/
def fsWrite (p : List Nat) (data : List Nat) (st : St) : Bool × St :=
  let (f, st1) := popFault st
  if f then (false, st1)
  else
    (true,
      ⟨⟨st1.fs.nextId,
        st1.fs.entries.map (fun e => if e.path = p then ⟨e.path, e.isDir, data⟩ else e)⟩,
      st1.faults⟩)

/-- `os.RemoveAll p`: removes the entry at `p` and everything below it;
never reports an error to the model (the source ignores its error). -/
def fsRemoveAll (p : List Nat) (fs : FS) : FS :=
  ⟨fs.nextId, fs.entries.filter (fun e => !(p.isPrefixOf e.path))⟩

/-- Render a modelled path the way the arguments and environment strings
of the source carry it (a concrete name under the system temp root). -/
def pathStr (p : List Nat) : String :=
  "/tmp" ++ p.foldl (fun acc n => acc ++ "/f" ++ toString n) ""

/-- The source's `writeToTmp`: create a temp file in the temp root, write
`data` to it; on a write failure remove the file and fail (returning no
handle). On success it returns the file's path (the accompanying closer
removes exactly that path later). Failure is `none`. -/
def writeToTmp (data : List Nat) (st : St) : Option (List Nat) × St :=
  match fsTempFile [] st with
  | (none, st1) => (none, st1)
  | (some p, st1) =>
    match fsWrite p data st1 with
    | (false, st2) => (none, ⟨fsRemoveAll p st2.fs, st2.faults⟩)
    | (true, st2) => (some p, st2)

/-- The source's `Cmd.RepoAdd` up to the final `c.run(args...)`: the Go
function creates a temp dir `tmp` (whose removal is deferred to every
return path), appends username/password/CA flags, then — for non-empty
`CertData` / `KeyData` — creates a temp file via `ioutil.TempFile("",
"helm")` (note: in the system temp root, not inside `tmp`), writes the
bytes into it and appends `--cert-file` / `--key-file` with the file's
path, and finally appends the positionals `name`, `url`. The result is
`some args` when control reaches `c.run` (whose own outcome does not touch
the filesystem) and `none` on an early error return; in every case the
deferred `os.RemoveAll(tmp)` has run on the returned state. -/
def RepoAdd (name url : String) (o : Creds) (st : St) : Option (List String) × St :=
  match fsTempDir [] st with
  | (none, st1) => (none, st1)
  | (some tmp, st1) =>
    let args := ["repo", "add"]
      ++ (if o.Username ≠ "" then ["--username", o.Username] else [])
      ++ (if o.Password ≠ "" then ["--password", o.Password] else [])
      ++ (if o.CAPath ≠ "" then ["--ca-file", o.CAPath] else [])
    match
      (if o.CertData ≠ [] then
        match fsTempFile [] st1 with
        | (none, st2) => (none, st2)
        | (some certP, st2) =>
          match fsWrite certP o.CertData st2 with
          | (false, st3) => (none, st3)
          | (true, st3) => (some (args ++ ["--cert-file", pathStr certP]), st3)
      else (some args, st1) : Option (List String) × St)
    with
    | (none, st2) => (none, ⟨fsRemoveAll tmp st2.fs, st2.faults⟩)
    | (some args2, st2) =>
      match
        (if o.KeyData ≠ [] then
          match fsTempFile [] st2 with
          | (none, st3) => (none, st3)
          | (some keyP, st3) =>
            match fsWrite keyP o.KeyData st3 with
            | (false, st4) => (none, st4)
            | (true, st4) => (some (args2 ++ ["--key-file", pathStr keyP]), st4)
        else (some args2, st2) : Option (List String) × St)
      with
      | (none, st3) => (none, ⟨fsRemoveAll tmp st3.fs, st3.faults⟩)
      | (some args3, st3) =>
        (some (args3 ++ [name, url]), ⟨fsRemoveAll tmp st3.fs, st3.faults⟩)

/-- The embedded `Cmd` value: its version facts, the private home
directory allocated by `NewCmdWithVersion` (a temp-dir path), and the
working directory. -/
structure Cmd where
  ver : HelmVer
  helmHome : List Nat
  WorkDir : String
deriving DecidableEq, Repr

/-- The child-process invocation assembled by `Cmd.run` and handed to the
external runner: binary, arguments, working directory, and environment. -/
structure ProcInvocation where
  bin : String
  argv : List String
  dir : String
  env : List String
deriving DecidableEq, Repr

/-- The source's `Cmd.run` up to the hand-off to the external runner: it
launches `c.binaryName` with the given arguments, in `c.WorkDir`, with
`os.Environ()` (the `inherited` parameter) plus the four overrides
`XDG_CACHE_HOME`, `XDG_CONFIG_HOME`, `XDG_DATA_HOME` and `HELM_HOME`
rooted at the session's `helmHome`, appended in that order. It consults no
other state. -/
def runCmd (c : Cmd) (inherited : List String) (args : List String) : ProcInvocation :=
  { bin := c.ver.binaryName
    argv := args
    dir := c.WorkDir
    env := inherited ++
      [ "XDG_CACHE_HOME=" ++ pathStr c.helmHome ++ "/cache"
      , "XDG_CONFIG_HOME=" ++ pathStr c.helmHome ++ "/config"
      , "XDG_DATA_HOME=" ++ pathStr c.helmHome ++ "/data"
      , "HELM_HOME=" ++ pathStr c.helmHome ] }

/-- The source's `Cmd.Close`: `os.RemoveAll(c.helmHome)` with the error
discarded — it returns nothing and never fails. -/
def closeCmd (c : Cmd) (fs : FS) : FS := fsRemoveAll c.helmHome fs

/-- `value` is strictly inside directory `dir`: `dir ++ "/"` is a proper
prefix of `value` (compared on characters). -/
def isProperSubdir (value dir : String) : Bool :=
  (dir ++ "/").data.isPrefixOf value.data ∧ value ≠ dir ++ "/"

/-! ## Helper lemmas -/

theorem isPrefixOf_self_append (l t : List Char) : l.isPrefixOf (l ++ t) = true := by
  induction l with
  | nil => simp [List.isPrefixOf]
  | cons c cs ih => simp [List.isPrefixOf, ih]

theorem subdir_ok (h z : String) (r : List Char) (hz : z.data = '/' :: r) (hr : r ≠ []) :
    isProperSubdir (h ++ z) h = true := by
  simp only [isProperSubdir, Bool.decide_and, Bool.and_eq_true, decide_eq_true_eq]
  constructor
  · have e1 : (h ++ "/").data = h.data ++ ['/'] := by simp
    have e2 : (h ++ z).data = (h.data ++ ['/']) ++ r := by
      simp [hz]
    rw [e1, e2, isPrefixOf_self_append]
  · intro hEq
    have : (h ++ z).data = (h ++ "/").data := by rw [hEq]
    simp [hz] at this
    exact hr this

/-! ## Claim theorems (first batch) -/

/-- C1: the claim says every transient cert/key file is removed before
`RepoAdd`/`Fetch` returns. The code of `RepoAdd` contradicts this (and its
own deferred cleanup, whose `tmp` directory is otherwise unused): the cert
file is created by `ioutil.TempFile("", "helm")` in the system temp root,
outside the deferred-removed `tmp` directory, and nothing ever removes it.
Concretely: `RepoAdd("r", "u")` with `CertData = [7, 7]` and no syscall
faults succeeds, yet the returned filesystem still holds the transient
file `/tmp/f1` (model path `[1]`) with the secret bytes `[7, 7]`. -/
theorem C1_repoAdd_leaves_secret_file :
    RepoAdd "r" "u" ⟨"", "", "", [7, 7], []⟩ ⟨⟨0, []⟩, []⟩ =
      (some ["repo", "add", "--cert-file", "/tmp/f1", "r", "u"],
        ⟨⟨2, [⟨[1], false, [7, 7]⟩]⟩, []⟩) ∧
    (⟨[1], false, [7, 7]⟩ : FsEntry) ∈
      (RepoAdd "r" "u" ⟨"", "", "", [7, 7], []⟩ ⟨⟨0, []⟩, []⟩).2.fs.entries := by
  decide

/-- C3 counterexample: the claim asserts the transform escapes an
unescaped comma at every position "including the first character". The
regex `([^\\]),` needs a preceding character, so `",a"` is returned
unchanged: its leading comma is not escaped. -/
theorem C3_leading_comma_unescaped :
    cleanSetParameters ",a" = ",a" ∧ (",a" : String) ≠ "\\,a" := by
  decide

/-- C4 counterexample: the claim says any operation invoked after
`Close()` fails with a `SessionClosedError`. No such error exists in the
code: `Close` only removes the home directory, and `run` consults no
closed state — after closing (home directory gone from the filesystem), an
operation still assembles the ordinary child-process invocation of the
`helm` binary, with the environment overrides pointing into the
now-removed home. -/
theorem C4_operation_after_close_runs :
    closeCmd ⟨⟨"helm", false, "pull", "show", "--name", true⟩, [0], "/wd"⟩
        ⟨1, [⟨[0], true, []⟩]⟩ = ⟨1, []⟩ ∧
    runCmd ⟨⟨"helm", false, "pull", "show", "--name", true⟩, [0], "/wd"⟩ []
        ["dependency", "build"] =
      ⟨"helm", ["dependency", "build"], "/wd",
        ["XDG_CACHE_HOME=/tmp/f0/cache", "XDG_CONFIG_HOME=/tmp/f0/config",
         "XDG_DATA_HOME=/tmp/f0/data", "HELM_HOME=/tmp/f0"]⟩ := by
  decide

/-- C4 (amended): `Close` is idempotent and total — closing a second time
(equivalently, closing when the home directory is already gone) changes
nothing and cannot fail; but operations after `Close` do not fail with a
`SessionClosedError`: `run` consults no closed state and still launches
the profile's binary with the given arguments. -/
theorem C4_close_idempotent (c : Cmd) (fs : FS) (inh args : List String) :
    closeCmd c (closeCmd c fs) = closeCmd c fs ∧
    (runCmd c inh args).bin = c.ver.binaryName ∧
    (runCmd c inh args).argv = args := by
  refine ⟨?_, rfl, rfl⟩
  simp [closeCmd, fsRemoveAll, List.filter_filter]

/-- C5: the claim says two constructions of the template argument list
from the same `Set`/`SetString`/`SetFile` mappings within one run are
identical. The code builds the list by `range` over Go maps, whose
iteration order the language does not fix (it is randomized per
iteration), and the construction is order-sensitive: the same two-entry
`Set` mapping iterated in its two possible orders yields two different
argument lists. -/
theorem C5_template_args_order_sensitive :
    templateArgs ⟨"helm", false, "pull", "show", "--name", true⟩ "."
        ⟨"r1", "", "", [], [("a", "1"), ("b", "2")], [], [], []⟩ ≠
      templateArgs ⟨"helm", false, "pull", "show", "--name", true⟩ "."
        ⟨"r1", "", "", [], [("b", "2"), ("a", "1")], [], [], []⟩ := by
  decide

/-- C8 counterexample: the claim says each of the four environment
overrides points at a subdirectory of the session's home directory. Three
do, but `HELM_HOME` is set to the home directory itself, which is not a
subdirectory of itself. -/
theorem C8_helm_home_not_subdir :
    (runCmd ⟨⟨"helm", false, "pull", "show", "--name", true⟩, [0], "/wd"⟩
        ["PATH=/bin"] []).env =
      ["PATH=/bin", "XDG_CACHE_HOME=/tmp/f0/cache", "XDG_CONFIG_HOME=/tmp/f0/config",
       "XDG_DATA_HOME=/tmp/f0/data", "HELM_HOME=/tmp/f0"] ∧
    isProperSubdir "/tmp/f0" "/tmp/f0" = false ∧
    isProperSubdir "/tmp/f0/cache" "/tmp/f0" = true := by
  decide

/-- C8 (amended): every process launched by `run` uses the profile's
binary name, the session's working directory, and an environment equal to
the inherited process environment plus exactly four overrides; the cache,
config and data overrides point at proper subdirectories (`/cache`,
`/config`, `/data`) of the session's private home directory, while the
`HELM_HOME` override points at the home directory itself. -/
theorem C8_run_environment (c : Cmd) (inherited args : List String) :
    (runCmd c inherited args).bin = c.ver.binaryName ∧
    (runCmd c inherited args).dir = c.WorkDir ∧
    (runCmd c inherited args).argv = args ∧
    (runCmd c inherited args).env =
      inherited ++
        ["XDG_CACHE_HOME=" ++ pathStr c.helmHome ++ "/cache",
         "XDG_CONFIG_HOME=" ++ pathStr c.helmHome ++ "/config",
         "XDG_DATA_HOME=" ++ pathStr c.helmHome ++ "/data",
         "HELM_HOME=" ++ pathStr c.helmHome] ∧
    (runCmd c inherited args).env.length = inherited.length + 4 ∧
    isProperSubdir (pathStr c.helmHome ++ "/cache") (pathStr c.helmHome) = true ∧
    isProperSubdir (pathStr c.helmHome ++ "/config") (pathStr c.helmHome) = true ∧
    isProperSubdir (pathStr c.helmHome ++ "/data") (pathStr c.helmHome) = true := by
  refine ⟨rfl, rfl, rfl, rfl, by simp [runCmd], ?_, ?_, ?_⟩
  · exact subdir_ok (pathStr c.helmHome) "/cache" "cache".data rfl (by decide)
  · exact subdir_ok (pathStr c.helmHome) "/config" "config".data rfl (by decide)
  · exact subdir_ok (pathStr c.helmHome) "/data" "data".data rfl (by decide)

/-- C9: `cleanSetParameters` turns `a,b` into `a\,b`, and on the
already-escaped `a\,b` it is idempotent — applying it a second time
returns the same string as the first application. -/
theorem C9_cleanSet_examples :
    cleanSetParameters "a,b" = "a\\,b" ∧
    cleanSetParameters (cleanSetParameters "a\\,b") = cleanSetParameters "a\\,b" := by
  decide

/-- C10: if `writeToTmp` creates its temporary file but the write of the
secret bytes fails (fault script: creation succeeds, write fails), it
removes the file before returning the error, so the filesystem holds
exactly the entries it held before the call, and no handle is returned. -/
theorem C10_writeToTmp_write_failure (data : List Nat) (fs : FS)
    (hwf : ∀ e ∈ fs.entries, ¬ ([fs.nextId].isPrefixOf e.path = true)) :
    writeToTmp data ⟨fs, [false, true]⟩ = (none, ⟨⟨fs.nextId + 1, fs.entries⟩, []⟩) := by
  show (none,
      ⟨fsRemoveAll [fs.nextId] ⟨fs.nextId + 1, ⟨[fs.nextId], false, []⟩ :: fs.entries⟩, []⟩) =
    ((none, ⟨⟨fs.nextId + 1, fs.entries⟩, []⟩) : Option (List Nat) × St)
  unfold fsRemoveAll
  simp only [Prod.mk.injEq, St.mk.injEq, FS.mk.injEq, true_and, and_true]
  rw [List.filter_cons]
  have h1 : ([fs.nextId].isPrefixOf [fs.nextId]) = true := by
    simp [List.isPrefixOf]
  simp only [h1, Bool.not_true, if_neg (by simp : ¬ (false = true))]
  exact List.filter_eq_self.mpr (fun e he => by simp [hwf e he])

/-- C10 witness: concrete instance of the write-failure cleanup, starting
from the empty filesystem with the fault script "create ok, write fails". -/
theorem C10_writeToTmp_write_failure_witness :
    writeToTmp [5] ⟨⟨0, []⟩, [false, true]⟩ = (none, ⟨⟨1, []⟩, []⟩) :=
  C10_writeToTmp_write_failure [5] ⟨0, []⟩ (by simp)

/-! ## `cleanSetParameters` lemmas -/

theorem cleanSetCore_eq_self (s : List Char) (hs : ∀ c ∈ s, c ≠ ',') :
    cleanSetCore s = s := by
  induction s with
  | nil => rfl
  | cons a s' ih =>
    cases s' with
    | nil => rfl
    | cons b rest =>
      have hb : b ≠ ',' := hs b (by simp)
      simp only [cleanSetCore]
      rw [if_neg (by simp [hb])]
      have := ih (fun c hc => hs c (List.mem_cons_of_mem a hc))
      rw [this]

theorem cleanSetCore_append (u t : List Char) (hu : ∀ c ∈ u, c ≠ ',')
    (ht : t.head? ≠ some ',') : cleanSetCore (u ++ t) = u ++ cleanSetCore t := by
  induction u with
  | nil => rfl
  | cons x u' ih =>
    have hih := ih (fun c hc => hu c (List.mem_cons_of_mem x hc))
    cases u' with
    | nil =>
      cases t with
      | nil => rfl
      | cons b r =>
        have hb : b ≠ ',' := fun hEq => ht (by simp [hEq])
        simp only [List.nil_append, List.cons_append, cleanSetCore]
        rw [if_neg (by simp [hb])]
    | cons y u'' =>
      have hy : y ≠ ',' := hu y (by simp)
      simp only [List.cons_append, cleanSetCore, List.append_eq]
      rw [if_neg (by simp [hy])]
      simp only [List.cons_append, List.append_eq] at hih
      rw [hih]

/-- One-step unfolding of `cleanSetCore` on a list with at least two
characters (the regex window). -/
theorem cleanSetCore_cons_cons (x y : Char) (rest : List Char) :
    cleanSetCore (x :: y :: rest) =
      if x ≠ '\\' ∧ y = ',' then x :: '\\' :: ',' :: cleanSetCore rest
      else x :: cleanSetCore (y :: rest) := rfl

/-- Segments joined by a separator (used to phrase comma-separated
values and their escaped forms). -/
def sepJoin (sep : List Char) : List (List Char) → List Char
  | [] => []
  | [s] => s
  | s :: rest => s ++ sep ++ sepJoin sep rest

theorem sepJoin_cons_of_ne (sep s : List Char) (rest : List (List Char)) (h : rest ≠ []) :
    sepJoin sep (s :: rest) = s ++ sep ++ sepJoin sep rest := by
  cases rest with
  | nil => exact absurd rfl h
  | cons t ts => rfl

/-- A comma following a nonempty, comma-free segment that does not end in
a backslash is escaped, and scanning resumes after the comma, whatever
follows it. -/
theorem clean_seg_comma (s t : List Char) (hs : s ≠ [])
    (hsc : ∀ c ∈ s, c ≠ ',') (hsl : s.getLast? ≠ some '\\') :
    cleanSetCore (s ++ ',' :: t) = s ++ '\\' :: ',' :: cleanSetCore t := by
  rcases List.eq_nil_or_concat s with rfl | ⟨u, a, rfl⟩
  · exact absurd rfl hs
  · simp only [List.concat_eq_append] at hsc hsl ⊢
    have ha1 : a ≠ '\\' := fun h => hsl (by rw [List.getLast?_concat u, h])
    have ha2 : a ≠ ',' := hsc a (by simp)
    have hu : ∀ c ∈ u, c ≠ ',' := fun c hc => hsc c (by simp [hc])
    rw [List.append_assoc, List.singleton_append,
      cleanSetCore_append u (a :: ',' :: t) hu (by simp [ha2]),
      cleanSetCore_cons_cons, if_pos ⟨ha1, rfl⟩]
    simp [List.append_assoc]

/-- Every comma of a comma-separated value whose segments are comma-free
and, where a comma follows, nonempty and not ending in a backslash, is
escaped. -/
theorem clean_multi (last : List Char) (hlast : ∀ c ∈ last, c ≠ ',') :
    ∀ init : List (List Char),
      (∀ s ∈ init, s ≠ [] ∧ (∀ c ∈ s, c ≠ ',') ∧ s.getLast? ≠ some '\\') →
      cleanSetCore (sepJoin [','] (init ++ [last])) =
        sepJoin ['\\', ','] (init ++ [last]) := by
  intro init
  induction init with
  | nil =>
    intro _
    simp only [List.nil_append]
    show cleanSetCore last = last
    exact cleanSetCore_eq_self last hlast
  | cons s init' ih =>
    intro hinit
    obtain ⟨hs, hsc, hsl⟩ := hinit s (by simp)
    have hinit' : ∀ x ∈ init', x ≠ [] ∧ (∀ c ∈ x, c ≠ ',') ∧ x.getLast? ≠ some '\\' :=
      fun x hx => hinit x (by simp [hx])
    have hne : init' ++ [last] ≠ [] := by simp
    rw [List.cons_append, sepJoin_cons_of_ne [','] s (init' ++ [last]) hne,
      sepJoin_cons_of_ne ['\\', ','] s (init' ++ [last]) hne,
      List.append_assoc, List.singleton_append,
      clean_seg_comma s _ hs hsc hsl, ih hinit']
    simp [List.append_assoc]

/-- C3 (amended): the transform inserts a backslash immediately before
every comma that is immediately preceded by a non-backslash character,
scanning left to right without overlap, and leaves backslash-preceded
commas untouched — but, the pattern needing a preceding character, a
comma at the first position of the value is left unchanged (the
counterexample forces this restriction of "all positions, including the
first character"). Conjuncts: (1) every comma of a comma-separated value
whose segments are comma-free and, where a comma follows, nonempty and
not ending in a backslash, is escaped (`a,b,c` becomes `a\,b\,c`);
(2) a comma preceded by a non-backslash character is escaped; (3) an
already-escaped comma is untouched; (4) a leading comma is unchanged;
(5) in a consecutive-comma run the comma consumed as the preceding
character of the previous match is not itself escaped (`kv,,w` becomes
`kv\,,w`); (6) while a leading comma does act as the preceding character
of the comma after it (`,,w` becomes `,\,w`). -/
theorem C3_cleanSet_amended (init : List (List Char)) (last u v : List Char) (a : Char)
    (hinit : ∀ s ∈ init, s ≠ [] ∧ (∀ c ∈ s, c ≠ ',') ∧ s.getLast? ≠ some '\\')
    (hlast : ∀ c ∈ last, c ≠ ',')
    (hu : ∀ c ∈ u, c ≠ ',') (hv : ∀ c ∈ v, c ≠ ',')
    (ha1 : a ≠ '\\') (ha2 : a ≠ ',') :
    cleanSetCore (sepJoin [','] (init ++ [last])) =
      sepJoin ['\\', ','] (init ++ [last]) ∧
    cleanSetCore (u ++ a :: ',' :: v) = u ++ a :: '\\' :: ',' :: v ∧
    cleanSetCore (u ++ '\\' :: ',' :: v) = u ++ '\\' :: ',' :: v ∧
    cleanSetCore (',' :: v) = ',' :: v ∧
    cleanSetCore (u ++ a :: ',' :: ',' :: v) = u ++ a :: '\\' :: ',' :: ',' :: v ∧
    cleanSetCore (',' :: ',' :: v) = ',' :: '\\' :: ',' :: v := by
  have hcv := cleanSetCore_eq_self v hv
  have h4 : cleanSetCore (',' :: v) = ',' :: v := by
    cases v with
    | nil => rfl
    | cons w v' =>
      have hw : w ≠ ',' := hv w (by simp)
      rw [cleanSetCore_cons_cons, if_neg (by simp [hw]), hcv]
  refine ⟨clean_multi last hlast init hinit, ?_, ?_, h4, ?_, ?_⟩
  · rw [cleanSetCore_append u (a :: ',' :: v) hu (by simp [ha2]),
      cleanSetCore_cons_cons, if_pos ⟨ha1, rfl⟩, hcv]
  · rw [cleanSetCore_append u ('\\' :: ',' :: v) hu (by simp),
      cleanSetCore_cons_cons, if_neg (by simp), h4]
  · rw [cleanSetCore_append u (a :: ',' :: ',' :: v) hu (by simp [ha2]),
      cleanSetCore_cons_cons, if_pos ⟨ha1, rfl⟩, h4]
  · rw [cleanSetCore_cons_cons, if_pos ⟨by simp, rfl⟩, hcv]

/-- C3 witness: the amended statement instantiated at the multi-comma
value `a,b,c` (segments `a`, `b`, `c`) and at `u = "k"`, `a = 'v'`,
`v = "w"`, i.e. the values `kv,w`, `k\,w`, `,w`, `kv,,w` and `,,w`. -/
theorem C3_cleanSet_amended_witness :
    cleanSetCore (sepJoin [','] ([['a'], ['b']] ++ [['c']])) =
      sepJoin ['\\', ','] ([['a'], ['b']] ++ [['c']]) ∧
    cleanSetCore (['k'] ++ 'v' :: ',' :: ['w']) = ['k'] ++ 'v' :: '\\' :: ',' :: ['w'] ∧
    cleanSetCore (['k'] ++ '\\' :: ',' :: ['w']) = ['k'] ++ '\\' :: ',' :: ['w'] ∧
    cleanSetCore (',' :: ['w']) = ',' :: ['w'] ∧
    cleanSetCore (['k'] ++ 'v' :: ',' :: ',' :: ['w']) =
      ['k'] ++ 'v' :: '\\' :: ',' :: ',' :: ['w'] ∧
    cleanSetCore (',' :: ',' :: ['w']) = ',' :: '\\' :: ',' :: ['w'] :=
  C3_cleanSet_amended [['a'], ['b']] ['c'] ['k'] ['w'] 'v'
    (by decide) (by decide) (by decide) (by decide) (by decide) (by decide)

/-- C6: `Fetch` builds its argument list so that an empty `version` yields
no `--version` flag, and a non-empty `version` yields the pair
`--version <version>` exactly once (no other position holds the token,
given that no other field literally equals `"--version"`), placed after
the fixed `pullCommand --destination <destination>` prefix and before the
trailing `--repo <repo> <chartName>` positionals. -/
theorem C6_fetch_version_flag (c : HelmVer) (repo chartName version destination : String)
    (creds : Creds) (certPath keyPath : String)
    (h : c.pullCommand ≠ "--version" ∧ destination ≠ "--version" ∧
         creds.Username ≠ "--version" ∧ creds.Password ≠ "--version" ∧
         creds.CAPath ≠ "--version" ∧ certPath ≠ "--version" ∧ keyPath ≠ "--version" ∧
         repo ≠ "--version" ∧ chartName ≠ "--version" ∧ version ≠ "--version") :
    (version = "" →
      "--version" ∉ fetchArgs c repo chartName version destination creds certPath keyPath) ∧
    (version ≠ "" → ∃ mid,
      fetchArgs c repo chartName version destination creds certPath keyPath =
        [c.pullCommand, "--destination", destination] ++ ["--version", version] ++ mid ++
          ["--repo", repo, chartName] ∧
      "--version" ∉ [c.pullCommand, "--destination", destination] ∧
      "--version" ∉ mid ∧
      "--version" ∉ ["--repo", repo, chartName]) := by
  obtain ⟨h1, h2, h3, h4, h5, h6, h7, h8, h9, h10⟩ := h
  have g1 := Ne.symm h1
  have g2 := Ne.symm h2
  have g3 := Ne.symm h3
  have g4 := Ne.symm h4
  have g5 := Ne.symm h5
  have g6 := Ne.symm h6
  have g7 := Ne.symm h7
  have g8 := Ne.symm h8
  have g9 := Ne.symm h9
  constructor
  · intro hv
    subst hv
    simp only [fetchArgs]
    split_ifs <;> simp_all
  · intro hv
    refine ⟨(if creds.Username ≠ "" then ["--username", creds.Username] else []) ++
        (if creds.Password ≠ "" then ["--password", creds.Password] else []) ++
        (if creds.CAPath ≠ "" then ["--ca-file", creds.CAPath] else []) ++
        (if creds.CertData ≠ [] then ["--cert-file", certPath] else []) ++
        (if creds.KeyData ≠ [] then ["--key-file", keyPath] else []), ?_, ?_, ?_, ?_⟩
    · simp [fetchArgs, hv]
    · simp [g1, g2]
    · split_ifs <;> simp_all
    · simp [g8, g9]

/-- C6 witness: the version flag shape at the concrete input
`Fetch(repo1, chart1, "1.2.3", /dest)` with username/password credentials
and cert bytes materialised at `/tmp/f1`. -/
theorem C6_fetch_version_flag_witness :
    ∃ mid,
      fetchArgs ⟨"helm", false, "fetch", "inspect", "--name", false⟩ "repo1" "chart1"
          "1.2.3" "/dest" ⟨"u", "pw", "", [1], []⟩ "/tmp/f1" "/tmp/f2" =
        ["fetch", "--destination", "/dest"] ++ ["--version", "1.2.3"] ++ mid ++
          ["--repo", "repo1", "chart1"] ∧
      "--version" ∉ ["fetch", "--destination", "/dest"] ∧
      "--version" ∉ mid ∧
      "--version" ∉ ["--repo", "repo1", "chart1"] :=
  (C6_fetch_version_flag ⟨"helm", false, "fetch", "inspect", "--name", false⟩ "repo1"
    "chart1" "1.2.3" "/dest" ⟨"u", "pw", "", [1], []⟩ "/tmp/f1" "/tmp/f2"
    (by decide)).2 (by decide)

/-- C7: the `--kube-version` flag appears in the template argument list
exactly when the profile supports it AND the options carry a non-empty
`KubeVersion`; in particular, with `kubeVersionSupported = false` the flag
is absent even for a non-empty `KubeVersion`. The hypotheses rule out
another field literally equalling `"--kube-version"`. -/
theorem C7_kube_version_gating (c : HelmVer) (chartPath : String) (opts : TemplateOpts)
    (h : chartPath ≠ "--kube-version" ∧ c.templateNameArg ≠ "--kube-version" ∧
         opts.Name ≠ "--kube-version" ∧ opts.Namespace ≠ "--kube-version" ∧
         (∀ v ∈ opts.Values, v ≠ "--kube-version") ∧
         (∀ v ∈ opts.APIVersions, v ≠ "--kube-version") ∧
         (∀ p ∈ opts.Set, p.1 ++ "=" ++ cleanSetParameters p.2 ≠ "--kube-version") ∧
         (∀ p ∈ opts.SetString, p.1 ++ "=" ++ cleanSetParameters p.2 ≠ "--kube-version") ∧
         (∀ p ∈ opts.SetFile, p.1 ++ "=" ++ cleanSetParameters p.2 ≠ "--kube-version")) :
    "--kube-version" ∈ templateArgs c chartPath opts ↔
      (opts.KubeVersion ≠ "" ∧ c.kubeVersionSupported = true) := by
  obtain ⟨h1, h2, h3, h4, h5, h6, h7, h8, h9⟩ := h
  have g1 := Ne.symm h1
  have g2 := Ne.symm h2
  have g3 := Ne.symm h3
  have g4 := Ne.symm h4
  constructor
  · intro hmem
    by_cases hk : opts.KubeVersion ≠ "" ∧ c.kubeVersionSupported = true
    · exact hk
    · exfalso
      simp only [templateArgs, if_neg hk, List.append_nil, List.nil_append,
        List.mem_append, List.mem_cons, List.not_mem_nil, or_false,
        List.mem_flatten, List.mem_map] at hmem
      rcases hmem with (((((hm | hm) | hm) | hm) | hm) | hm) | hm
      · rcases hm with hm | hm | hm | hm <;> simp_all
      · split_ifs at hm <;> simp_all
      · obtain ⟨l, ⟨p, hp, rfl⟩, hl⟩ := hm
        simp at hl
        exact h7 p hp hl.symm
      · obtain ⟨l, ⟨p, hp, rfl⟩, hl⟩ := hm
        simp at hl
        exact h8 p hp hl.symm
      · obtain ⟨l, ⟨p, hp, rfl⟩, hl⟩ := hm
        simp at hl
        exact h9 p hp hl.symm
      · obtain ⟨l, ⟨v, hv, rfl⟩, hl⟩ := hm
        simp at hl
        exact h5 v hv hl.symm
      · obtain ⟨l, ⟨v, hv, rfl⟩, hl⟩ := hm
        simp at hl
        exact h6 v hv hl.symm
  · rintro ⟨hne, hsup⟩
    simp [templateArgs, if_pos (And.intro hne hsup)]

/-- C7 witness: the spec's scenario — profile
`{pullCommand: fetch, templateNameArg: --name, kubeVersionSupported: false}`
and options `{releaseName: r1, platformVersion: "1.18"}` — yields an
argument list with no `--kube-version` flag despite the non-empty
platform version. -/
theorem C7_kube_version_gating_witness :
    "--kube-version" ∉
      templateArgs ⟨"helm", true, "fetch", "inspect", "--name", false⟩ "./chart"
        ⟨"r1", "", "1.18", [], [], [], [], []⟩ := fun hmem =>
  absurd
    ((C7_kube_version_gating ⟨"helm", true, "fetch", "inspect", "--name", false⟩ "./chart"
        ⟨"r1", "", "1.18", [], [], [], [], []⟩
        (by refine ⟨by decide, by decide, by decide, by decide, ?_, ?_, ?_, ?_, ?_⟩ <;> simp)).mp
      hmem).2
    (by decide)

/-! ## Redactor lemmas -/

theorem dropWhile_length_le (p : Char → Bool) (l : List Char) :
    (l.dropWhile p).length ≤ l.length := by
  induction l with
  | nil => simp
  | cons a l ih =>
    rw [List.dropWhile_cons]
    split_ifs
    · exact le_trans ih (by simp)
    · simp

theorem dropWhile_nonspace (v rest : List Char) (hv : ∀ c ∈ v, c ≠ ' ')
    (hrest : rest.head? = some ' ' ∨ rest = []) :
    (v ++ rest).dropWhile (fun d => !(d == ' ')) = rest := by
  induction v with
  | nil =>
    rcases hrest with h | h
    · cases rest with
      | nil => simp at h
      | cons r rs =>
        simp at h
        subst h
        simp [List.dropWhile_cons]
    · subst h
      rfl
  | cons c v' ih =>
    have hc : c ≠ ' ' := hv c (by simp)
    have hih := ih (fun d hd => hv d (by simp [hd]))
    simp only [List.cons_append, List.dropWhile_cons]
    rw [if_pos (by simp [hc]), hih]

theorem redactAux_congr (f1 : Nat) : ∀ (f2 : Nat) (s : List Char),
    s.length ≤ f1 → s.length ≤ f2 → redactAux f1 s = redactAux f2 s := by
  induction f1 with
  | zero =>
    intro f2 s h1 _
    have : s = [] := List.eq_nil_of_length_eq_zero (Nat.le_zero.mp h1)
    subst this
    cases f2 <;> rfl
  | succ f ih =>
    intro f2 s h1 h2
    cases s with
    | nil => cases f2 <;> rfl
    | cons c cs =>
      cases f2 with
      | zero => simp at h2
      | succ f2' =>
        simp only [redactAux]
        have hlen : cs.length + 1 ≤ f + 1 := by simpa using h1
        have hlen2 : cs.length + 1 ≤ f2' + 1 := by simpa using h2
        have hd1 := dropWhile_length_le (fun d => !(d == ' ')) ((c :: cs).drop 11)
        have hd2 : ((c :: cs).drop 11).length = (c :: cs).length - 11 :=
          List.length_drop 11 (c :: cs)
        simp only [List.length_cons] at hd2
        split_ifs with hu hp
        · exact congrArg (fun t => flagU ++ maskChars ++ t)
            (ih f2' _ (by omega) (by omega))
        · exact congrArg (fun t => flagP ++ maskChars ++ t)
            (ih f2' _ (by omega) (by omega))
        · exact congrArg (fun t => c :: t) (ih f2' cs (by omega) (by omega))

theorem redactAux_append (cs : List Char) : ∀ (ds : List Char) (fuel : Nat),
    (cs ++ ds).length ≤ fuel →
    (∀ i, i < cs.length →
      ¬ flagU.isPrefixOf ((cs ++ ds).drop i) = true ∧
      ¬ flagP.isPrefixOf ((cs ++ ds).drop i) = true) →
    redactAux fuel (cs ++ ds) = cs ++ redactAux ds.length ds := by
  induction cs with
  | nil =>
    intro ds fuel hf _
    simp only [List.nil_append] at hf ⊢
    exact redactAux_congr fuel ds.length ds hf le_rfl
  | cons c cs' ih =>
    intro ds fuel hf hno
    cases fuel with
    | zero => exact absurd hf (by simp)
    | succ f =>
      have h0 := hno 0 (by simp)
      simp only [List.drop_zero] at h0
      try simp only [List.cons_append] at h0
      try simp only [List.cons_append]
      simp only [redactAux]
      rw [if_neg h0.1, if_neg h0.2]
      have hf' : (cs' ++ ds).length ≤ f := by
        simp only [List.length_append, List.length_cons] at hf ⊢
        omega
      have hno' : ∀ i, i < cs'.length →
          ¬ flagU.isPrefixOf ((cs' ++ ds).drop i) = true ∧
          ¬ flagP.isPrefixOf ((cs' ++ ds).drop i) = true := by
        intro i hi
        have := hno (i + 1) (by simpa using Nat.succ_lt_succ hi)
        simpa [List.drop_succ_cons] using this
      rw [ih ds f hf' hno']

theorem redactAux_flagU (v rest : List Char) (hv : ∀ c ∈ v, c ≠ ' ')
    (hrest : rest.head? = some ' ' ∨ rest = []) :
    ∀ fuel, (flagU ++ (v ++ rest)).length ≤ fuel →
      redactAux fuel (flagU ++ (v ++ rest)) =
        flagU ++ maskChars ++ redactAux rest.length rest := by
  intro fuel hf
  cases fuel with
  | zero => exact absurd hf (by simp [flagU])
  | succ f =>
    show (if flagU.isPrefixOf (flagU ++ (v ++ rest)) = true then
        flagU ++ maskChars ++
          redactAux f (((flagU ++ (v ++ rest)).drop 11).dropWhile (fun d => !(d == ' ')))
      else if flagP.isPrefixOf (flagU ++ (v ++ rest)) = true then
        flagP ++ maskChars ++
          redactAux f (((flagU ++ (v ++ rest)).drop 11).dropWhile (fun d => !(d == ' ')))
      else '-' :: redactAux f ((flagU ++ (v ++ rest)).drop 1)) =
      flagU ++ maskChars ++ redactAux rest.length rest
    rw [if_pos (isPrefixOf_self_append flagU (v ++ rest))]
    have hd0 : (flagU ++ (v ++ rest)).drop 11 = v ++ rest := List.drop_left flagU (v ++ rest)
    rw [hd0, dropWhile_nonspace v rest hv hrest]
    refine congrArg (fun t => flagU ++ maskChars ++ t) ?_
    refine redactAux_congr f rest.length rest ?_ le_rfl
    simp only [List.length_append, flagU, List.length_cons, List.length_nil] at hf ⊢
    omega

theorem redactAux_flagP (v rest : List Char) (hv : ∀ c ∈ v, c ≠ ' ')
    (hrest : rest.head? = some ' ' ∨ rest = []) :
    ∀ fuel, (flagP ++ (v ++ rest)).length ≤ fuel →
      redactAux fuel (flagP ++ (v ++ rest)) =
        flagP ++ maskChars ++ redactAux rest.length rest := by
  intro fuel hf
  cases fuel with
  | zero => exact absurd hf (by simp [flagP])
  | succ f =>
    show (if flagU.isPrefixOf (flagP ++ (v ++ rest)) = true then
        flagU ++ maskChars ++
          redactAux f (((flagP ++ (v ++ rest)).drop 11).dropWhile (fun d => !(d == ' ')))
      else if flagP.isPrefixOf (flagP ++ (v ++ rest)) = true then
        flagP ++ maskChars ++
          redactAux f (((flagP ++ (v ++ rest)).drop 11).dropWhile (fun d => !(d == ' ')))
      else '-' :: redactAux f ((flagP ++ (v ++ rest)).drop 1)) =
      flagP ++ maskChars ++ redactAux rest.length rest
    rw [if_neg (by simp [flagU, flagP, List.isPrefixOf])]
    rw [if_pos (isPrefixOf_self_append flagP (v ++ rest))]
    have hd0 : (flagP ++ (v ++ rest)).drop 11 = v ++ rest := List.drop_left flagP (v ++ rest)
    rw [hd0, dropWhile_nonspace v rest hv hrest]
    refine congrArg (fun t => flagP ++ maskChars ++ t) ?_
    refine redactAux_congr f rest.length rest ?_ le_rfl
    simp only [List.length_append, flagP, List.length_cons, List.length_nil] at hf ⊢
    omega

/-- Each token followed by one space (the rendering of the tokens that
precede a flag in a space-separated command line). -/
def joinAfter (ts : List (List Char)) : List Char := (ts.map (fun t => t ++ [' '])).flatten

/-- Each token preceded by one space (the rendering of the tokens that
follow the last flag value in a space-separated command line). -/
def joinBefore (ts : List (List Char)) : List Char := (ts.map (fun t => ' ' :: t)).flatten

/-- The token `--username` (no trailing space). -/
def uTok : List Char := ['-', '-', 'u', 's', 'e', 'r', 'n', 'a', 'm', 'e']

/-- The token `--password` (no trailing space). -/
def pTok : List Char := ['-', '-', 'p', 'a', 's', 's', 'w', 'o', 'r', 'd']

/-- Tokens joined by single spaces. -/
def spaceJoin : List (List Char) → List Char
  | [] => []
  | [t] => t
  | t :: ts => t ++ ' ' :: spaceJoin ts

/-- A command line holding the tokens `pre`, then `--username x`, then
`mid`, then `--password y`, then `post`, all single-space separated. -/
def cmdLine (pre mid post : List (List Char)) (x y : List Char) : List Char :=
  joinAfter pre ++
    (flagU ++ (x ++ (' ' :: (joinAfter mid ++ (flagP ++ (y ++ joinBefore post))))))

theorem spaceJoin_append (u : List (List Char)) : ∀ (w : List (List Char)), w ≠ [] →
    spaceJoin (u ++ w) = joinAfter u ++ spaceJoin w := by
  induction u with
  | nil => intro w _; simp [joinAfter]
  | cons t u' ih =>
    intro w hw
    have hne : u' ++ w ≠ [] := by
      intro h
      rcases List.append_eq_nil.mp h with ⟨_, h2⟩
      exact hw h2
    rw [List.cons_append]
    cases hcase : u' ++ w with
    | nil => exact absurd hcase hne
    | cons z zs =>
      rw [show spaceJoin (t :: z :: zs) = t ++ ' ' :: spaceJoin (z :: zs) from rfl,
        ← hcase, ih w hw]
      simp [joinAfter, List.append_assoc]

theorem joinBefore_eq_spaceJoin (post : List (List Char)) (h : post ≠ []) :
    joinBefore post = ' ' :: spaceJoin post := by
  induction post with
  | nil => exact absurd rfl h
  | cons q qs ih =>
    cases qs with
    | nil => simp [joinBefore, spaceJoin]
    | cons r rs =>
      have e : joinBefore (q :: r :: rs) = (' ' :: q) ++ joinBefore (r :: rs) := rfl
      rw [e, ih (by simp), show spaceJoin (q :: r :: rs) = q ++ ' ' :: spaceJoin (r :: rs) from rfl]
      simp

theorem joinBefore_shape (post : List (List Char)) :
    (joinBefore post).head? = some ' ' ∨ joinBefore post = [] := by
  cases post with
  | nil => exact Or.inr rfl
  | cons q qs => exact Or.inl (by simp [joinBefore])

theorem cmdLine_eq_spaceJoin (pre mid post : List (List Char)) (x y : List Char) :
    cmdLine pre mid post x y =
      spaceJoin (pre ++ ([uTok, x] ++ (mid ++ ([pTok, y] ++ post)))) := by
  rw [spaceJoin_append pre _ (by simp)]
  rw [spaceJoin_append [uTok, x] _ (by simp)]
  rw [spaceJoin_append mid _ (by simp)]
  cases post with
  | nil =>
    rw [show spaceJoin ([pTok, y] ++ []) = pTok ++ ' ' :: y from rfl]
    simp [cmdLine, joinAfter, joinBefore, flagU, flagP, uTok, pTok, List.append_assoc]
  | cons q qs =>
    rw [spaceJoin_append [pTok, y] (q :: qs) (by simp)]
    rw [show cmdLine pre mid (q :: qs) x y =
      joinAfter pre ++
        (flagU ++ (x ++ (' ' :: (joinAfter mid ++ (flagP ++ (y ++ joinBefore (q :: qs)))))))
      from rfl]
    rw [joinBefore_eq_spaceJoin (q :: qs) (by simp)]
    simp [joinAfter, flagU, flagP, uTok, pTok, List.append_assoc]

theorem redact_core (A B C X Y : List Char)
    (hX : ∀ c ∈ X, c ≠ ' ') (hY : ∀ c ∈ Y, c ≠ ' ')
    (hCshape : C.head? = some ' ' ∨ C = [])
    (hU : ∀ i ≤ (A ++ (flagU ++ (X ++ (' ' :: (B ++ (flagP ++ (Y ++ C))))))).length,
        flagU.isPrefixOf ((A ++ (flagU ++ (X ++ (' ' :: (B ++ (flagP ++ (Y ++ C))))))).drop i)
          = true → i = A.length)
    (hP : ∀ i ≤ (A ++ (flagU ++ (X ++ (' ' :: (B ++ (flagP ++ (Y ++ C))))))).length,
        flagP.isPrefixOf ((A ++ (flagU ++ (X ++ (' ' :: (B ++ (flagP ++ (Y ++ C))))))).drop i)
          = true → i = A.length + 11 + X.length + 1 + B.length) :
    redactChars (A ++ (flagU ++ (X ++ (' ' :: (B ++ (flagP ++ (Y ++ C))))))) =
      A ++ (flagU ++ (maskChars ++ (' ' :: (B ++ (flagP ++ (maskChars ++ C)))))) := by
  have hlen : (A ++ (flagU ++ (X ++ (' ' :: (B ++ (flagP ++ (Y ++ C))))))).length =
      A.length + 11 + X.length + 1 + B.length + 11 + Y.length + C.length := by
    simp [flagU, flagP]
    omega
  have eA : (A ++ (flagU ++ (X ++ (' ' :: (B ++ (flagP ++ (Y ++ C))))))).drop A.length =
      flagU ++ (X ++ (' ' :: (B ++ (flagP ++ (Y ++ C))))) := List.drop_left A _
  have eB : (A ++ (flagU ++ (X ++ (' ' :: (B ++ (flagP ++ (Y ++ C))))))).drop (A.length + 11) =
      X ++ (' ' :: (B ++ (flagP ++ (Y ++ C)))) := by
    rw [← List.drop_drop, eA]
    exact List.drop_left flagU _
  have eX : (A ++ (flagU ++ (X ++ (' ' :: (B ++ (flagP ++ (Y ++ C))))))).drop
      (A.length + 11 + X.length) = ' ' :: (B ++ (flagP ++ (Y ++ C))) := by
    rw [← List.drop_drop, eB]
    exact List.drop_left X _
  have eSp : (A ++ (flagU ++ (X ++ (' ' :: (B ++ (flagP ++ (Y ++ C))))))).drop
      (A.length + 11 + X.length + 1) = B ++ (flagP ++ (Y ++ C)) := by
    rw [← List.drop_drop, eX]
    rfl
  have eBB : (A ++ (flagU ++ (X ++ (' ' :: (B ++ (flagP ++ (Y ++ C))))))).drop
      (A.length + 11 + X.length + 1 + B.length) = flagP ++ (Y ++ C) := by
    rw [← List.drop_drop, eSp]
    exact List.drop_left B _
  have eP2 : (A ++ (flagU ++ (X ++ (' ' :: (B ++ (flagP ++ (Y ++ C))))))).drop
      (A.length + 11 + X.length + 1 + B.length + 11) = Y ++ C := by
    rw [← List.drop_drop, eBB]
    exact List.drop_left flagP _
  have eY : (A ++ (flagU ++ (X ++ (' ' :: (B ++ (flagP ++ (Y ++ C))))))).drop
      (A.length + 11 + X.length + 1 + B.length + 11 + Y.length) = C := by
    rw [← List.drop_drop, eP2]
    exact List.drop_left Y _
  have step1 : redactChars (A ++ (flagU ++ (X ++ (' ' :: (B ++ (flagP ++ (Y ++ C))))))) =
      A ++ redactAux (flagU ++ (X ++ (' ' :: (B ++ (flagP ++ (Y ++ C)))))).length
        (flagU ++ (X ++ (' ' :: (B ++ (flagP ++ (Y ++ C)))))) := by
    unfold redactChars
    refine redactAux_append A _ _ le_rfl ?_
    intro i hi
    have hbound : i ≤ (A ++ (flagU ++ (X ++ (' ' :: (B ++ (flagP ++ (Y ++ C))))))).length := by
      rw [hlen]; omega
    constructor
    · intro habs
      have := hU i hbound habs
      omega
    · intro habs
      have := hP i hbound habs
      omega
  have step2 : redactAux (flagU ++ (X ++ (' ' :: (B ++ (flagP ++ (Y ++ C)))))).length
      (flagU ++ (X ++ (' ' :: (B ++ (flagP ++ (Y ++ C)))))) =
      flagU ++ maskChars ++ redactAux (' ' :: (B ++ (flagP ++ (Y ++ C)))).length
        (' ' :: (B ++ (flagP ++ (Y ++ C)))) :=
    redactAux_flagU X (' ' :: (B ++ (flagP ++ (Y ++ C)))) hX (Or.inl rfl) _ le_rfl
  have step3 : redactAux (' ' :: (B ++ (flagP ++ (Y ++ C)))).length
      (' ' :: (B ++ (flagP ++ (Y ++ C)))) =
      (' ' :: B) ++ redactAux (flagP ++ (Y ++ C)).length (flagP ++ (Y ++ C)) := by
    refine redactAux_append (' ' :: B) (flagP ++ (Y ++ C)) _ le_rfl ?_
    intro i hi
    simp only [List.length_cons] at hi
    have hdrop : ((' ' :: B) ++ (flagP ++ (Y ++ C))).drop i =
        (A ++ (flagU ++ (X ++ (' ' :: (B ++ (flagP ++ (Y ++ C))))))).drop
          (A.length + 11 + X.length + i) := by
      rw [← List.drop_drop, eX]
      rfl
    have hbound : A.length + 11 + X.length + i ≤
        (A ++ (flagU ++ (X ++ (' ' :: (B ++ (flagP ++ (Y ++ C))))))).length := by
      rw [hlen]; omega
    constructor
    · intro habs
      rw [hdrop] at habs
      have := hU _ hbound habs
      omega
    · intro habs
      rw [hdrop] at habs
      have := hP _ hbound habs
      omega
  have step4 : redactAux (flagP ++ (Y ++ C)).length (flagP ++ (Y ++ C)) =
      flagP ++ maskChars ++ redactAux C.length C :=
    redactAux_flagP Y C hY hCshape _ le_rfl
  have step5 : redactAux C.length C = C := by
    have h5 : redactAux (C ++ []).length (C ++ []) =
        C ++ redactAux ([] : List Char).length [] := by
      refine redactAux_append C [] _ le_rfl ?_
      intro i hi
      have hdrop : (C ++ ([] : List Char)).drop i =
          (A ++ (flagU ++ (X ++ (' ' :: (B ++ (flagP ++ (Y ++ C))))))).drop
            (A.length + 11 + X.length + 1 + B.length + 11 + Y.length + i) := by
        rw [← List.drop_drop, eY, List.append_nil]
      have hbound : A.length + 11 + X.length + 1 + B.length + 11 + Y.length + i ≤
          (A ++ (flagU ++ (X ++ (' ' :: (B ++ (flagP ++ (Y ++ C))))))).length := by
        rw [hlen]; omega
      constructor
      · intro habs
        rw [hdrop] at habs
        have := hU _ hbound habs
        omega
      · intro habs
        rw [hdrop] at habs
        have := hP _ hbound habs
        omega
    simpa [redactAux] using h5
  rw [step1, step2, step3, step4, step5]
  simp [List.append_assoc]

/-- C2 counterexample: the claim quantifies over every text containing the
tokens `--username X` and `--password Y` and requires the output to
contain neither `X` nor `Y` while preserving every other token. For the
input `--username p --password q p` (so `X = p`, `Y = q`, and a third
token that happens to equal `p`), both requirements cannot hold at once:
the redactor masks only the two flag values and — correctly preserving the
final token — returns a string that still contains the token `p = X`. -/
theorem C2_redactor_counterexample :
    splitTokens ("--username p --password q p".data) =
      ["--username".data, ['p'], "--password".data, ['q'], ['p']] ∧
    redactor "--username p --password q p" = "--username ****** --password ****** p" ∧
    ['p'] ∈ splitTokens (redactor "--username p --password q p").data := by
  decide

/-- C2 (amended): for a command line made of space-separated tokens
`pre ++ [--username, X] ++ mid ++ [--password, Y] ++ post` (`X`, `Y`
space-free), provided the character patterns `--username ` / `--password `
occur only at those two flag positions, the redactor replaces exactly the
two values `X` and `Y` by `******` and leaves every other character — in
particular every other token — unchanged; and when `X` (resp. `Y`) occurs
in no other token and differs from the flag tokens and the mask, the
output token list contains neither `X` nor `Y`. -/
theorem C2_redactor_amended (pre mid post : List (List Char)) (X Y : List Char)
    (hX : ∀ c ∈ X, c ≠ ' ') (hY : ∀ c ∈ Y, c ≠ ' ')
    (hU : ∀ i ≤ (cmdLine pre mid post X Y).length,
        flagU.isPrefixOf ((cmdLine pre mid post X Y).drop i) = true →
          i = (joinAfter pre).length)
    (hP : ∀ i ≤ (cmdLine pre mid post X Y).length,
        flagP.isPrefixOf ((cmdLine pre mid post X Y).drop i) = true →
          i = (joinAfter pre).length + 11 + X.length + 1 + (joinAfter mid).length)
    (hXo : X ∉ pre ∧ X ∉ mid ∧ X ∉ post ∧ X ≠ uTok ∧ X ≠ pTok ∧ X ≠ maskChars)
    (hYo : Y ∉ pre ∧ Y ∉ mid ∧ Y ∉ post ∧ Y ≠ uTok ∧ Y ≠ pTok ∧ Y ≠ maskChars) :
    redactChars (cmdLine pre mid post X Y) = cmdLine pre mid post maskChars maskChars ∧
    cmdLine pre mid post X Y =
      spaceJoin (pre ++ ([uTok, X] ++ (mid ++ ([pTok, Y] ++ post)))) ∧
    cmdLine pre mid post maskChars maskChars =
      spaceJoin (pre ++ ([uTok, maskChars] ++ (mid ++ ([pTok, maskChars] ++ post)))) ∧
    X ∉ pre ++ ([uTok, maskChars] ++ (mid ++ ([pTok, maskChars] ++ post))) ∧
    Y ∉ pre ++ ([uTok, maskChars] ++ (mid ++ ([pTok, maskChars] ++ post))) := by
  refine ⟨?_, cmdLine_eq_spaceJoin pre mid post X Y,
    cmdLine_eq_spaceJoin pre mid post maskChars maskChars, ?_, ?_⟩
  · exact redact_core (joinAfter pre) (joinAfter mid) (joinBefore post) X Y hX hY
      (joinBefore_shape post) hU hP
  · obtain ⟨h1, h2, h3, h4, h5, h6⟩ := hXo
    simp [List.mem_append, h1, h2, h3, h4, h5, h6]
  · obtain ⟨h1, h2, h3, h4, h5, h6⟩ := hYo
    simp [List.mem_append, h1, h2, h3, h4, h5, h6]

/-- C2 witness: the amended statement at the concrete command line
`helm --username bob --password pw1 myrepo`. -/
theorem C2_redactor_amended_witness :
    redactChars (cmdLine [['h', 'e', 'l', 'm']] [] [['m', 'y', 'r', 'e', 'p', 'o']]
        ['b', 'o', 'b'] ['p', 'w', '1']) =
      cmdLine [['h', 'e', 'l', 'm']] [] [['m', 'y', 'r', 'e', 'p', 'o']]
        maskChars maskChars ∧
    cmdLine [['h', 'e', 'l', 'm']] [] [['m', 'y', 'r', 'e', 'p', 'o']]
        ['b', 'o', 'b'] ['p', 'w', '1'] =
      spaceJoin ([['h', 'e', 'l', 'm']] ++ ([uTok, ['b', 'o', 'b']] ++
        ([] ++ ([pTok, ['p', 'w', '1']] ++ [['m', 'y', 'r', 'e', 'p', 'o']])))) ∧
    cmdLine [['h', 'e', 'l', 'm']] [] [['m', 'y', 'r', 'e', 'p', 'o']]
        maskChars maskChars =
      spaceJoin ([['h', 'e', 'l', 'm']] ++ ([uTok, maskChars] ++
        ([] ++ ([pTok, maskChars] ++ [['m', 'y', 'r', 'e', 'p', 'o']])))) ∧
    ['b', 'o', 'b'] ∉ [['h', 'e', 'l', 'm']] ++ ([uTok, maskChars] ++
      ([] ++ ([pTok, maskChars] ++ [['m', 'y', 'r', 'e', 'p', 'o']]))) ∧
    ['p', 'w', '1'] ∉ [['h', 'e', 'l', 'm']] ++ ([uTok, maskChars] ++
      ([] ++ ([pTok, maskChars] ++ [['m', 'y', 'r', 'e', 'p', 'o']]))) :=
  C2_redactor_amended [['h', 'e', 'l', 'm']] [] [['m', 'y', 'r', 'e', 'p', 'o']]
    ['b', 'o', 'b'] ['p', 'w', '1'] (by decide) (by decide) (by decide) (by decide)
    (by decide) (by decide)
